import Mathlib

/-!
Verification of the `tools/actions` build-helper scripts of the xrtl
repository: two per-action extractors (`generate_compile_command.py`,
`generate_link_target.py`) that write NUL-delimited side-car files, and two
aggregators (`generate_compile_commands_json.py`,
`generate_link_targets_json.py`) that collect those side-car files into a
single JSON-array database file.

The scripts are Python 2 (`len(contents) / 2` is floor division).  File
contents are modelled as Lean `String`s (lists of characters); every
character the scripts treat byte-wise (`'\0'`, `','`, `'['`, `']'`) is
ASCII, so one character is one byte at each such point.
-/

namespace Xrtl

/-! ### Models of the Python library calls used by the scripts -/

/-- Models the Python library call `s.split(sep)` for the one-character
separator `'\0'`, at the character level: split at every NUL, keeping empty
fields, so `k` separators yield `k + 1` fields (`""` splits to `[""]`). -/
def splitCharList : List Char → List (List Char)
  | [] => [[]]
  | c :: rest =>
    if c = '\x00' then [] :: splitCharList rest
    else
      match splitCharList rest with
      | [] => [[c]]
      | f :: fs => (c :: f) :: fs

/-- `contents.split('\0')` on a file's contents. -/
def splitNul (s : String) : List String :=
  (splitCharList s.data).map (fun l => String.mk l)

/-- Models the Python library call `s.replace(a, b)` for a one-character
pattern `a`: every occurrence of the character `a` is replaced by `b`.
The two uses in the scripts, `replace('"', '\\"')` and
`replace('\\', '\\\\')`, both have one-character patterns. -/
def replaceChar (s : String) (a : Char) (b : String) : String :=
  String.mk ((s.data.map (fun c => if c = a then b.data else [c])).flatten)

/-- Models Python `s.endswith(t)`. -/
def strEndsWith (s t : String) : Bool :=
  t.data.isSuffixOf s.data

/-- Models Python `s.startswith(t)`. -/
def strStartsWith (s t : String) : Bool :=
  t.data.isPrefixOf s.data

/-- Models the Python library call `os.path.join(a, b)` (POSIX form, the
two-argument case): an absolute `b` replaces `a`; otherwise `b` is appended
to `a` with a `/` separator unless `a` is empty or already ends in `/`. -/
def pathJoin (a b : String) : String :=
  if strStartsWith b "/" then b
  else if a = "" ∨ strEndsWith a "/" then a ++ b
  else a ++ "/" ++ b

/-- A string free of NUL characters (the side-car field delimiter). -/
abbrev nulFree (s : String) : Prop := '\x00' ∉ s.data

/-! ### Data model: the fields of the build-action protobuf read by the
scripts (`ExtraActionInfo` with its `CppCompileInfo` / `CppLinkInfo`
extensions). -/

/-- The fields of the `CppCompileInfo` payload read by
`generate_compile_command.py`. -/
structure CppCompileInfo where
  tool : String
  compiler_option : List String
  source_file : String
  output_file : String
  sources_and_headers : List String

/-- The fields of the `CppLinkInfo` payload read by
`generate_link_target.py`. -/
structure CppLinkInfo where
  link_target_type : String
  output_file : String

/-- The fields of the `ExtraActionInfo` record read by
`generate_link_target.py`. -/
structure ExtraActionInfo where
  owner : String
  id : String
  cpp_link_info : CppLinkInfo

/-! ### `tools/actions/generate_compile_command.py` -/

/-- Module-level flag: "When set commands will be emitted for all .h files
required per unit."  Set to `True` in the source. -/
def INCLUDE_ALL_HEADERS : Bool := true

/-- `_get_cpp_command(cpp_compile_info)`, with the module-level
`INCLUDE_ALL_HEADERS` flag passed explicitly.  Returns the formatted
command string `'%s %s -c %s -o %s'` and the list of files to emit. -/
def getCppCommand (include_all_headers : Bool)
    (cpp_compile_info : CppCompileInfo) : String × List String :=
  let compiler := cpp_compile_info.tool
  let options := String.intercalate " " cpp_compile_info.compiler_option
  let source := cpp_compile_info.source_file
  let sources :=
    if !cpp_compile_info.sources_and_headers.isEmpty && include_all_headers then
      [source] ++ cpp_compile_info.sources_and_headers.filter
        (fun source_file => strEndsWith source_file ".h")
    else
      [source]
  let output := cpp_compile_info.output_file
  (compiler ++ " " ++ options ++ " -c " ++ source ++ " -o " ++ output, sources)

/-- The side-car file contents written by `main` of
`generate_compile_command.py`: for each source file, in order, it writes the
command, a NUL, the file, a NUL. -/
def compileCommandMain (include_all_headers : Bool)
    (info : CppCompileInfo) : String :=
  let command := (getCppCommand include_all_headers info).1
  (getCppCommand include_all_headers info).2.foldl
    (fun acc source_file => acc ++ command ++ "\x00" ++ source_file ++ "\x00")
    ""

/-! ### `tools/actions/generate_compile_commands_json.py` -/

/-- The entry template of `_get_commands_from_file` (a Python triple-quoted
string with literal newlines and indentation), instantiated at
`(command_directory, command, file_path)`. -/
def cmdEntry (directory command file : String) : String :=
  "\x7b\n        \"directory\": \"" ++ directory
    ++ "\",\n        \"command\": \"" ++ command
    ++ "\",\n        \"file\": \"" ++ file
    ++ "\"\n      \x7d,"

/-- `_get_commands_from_file(file_path, command_directory)`, applied to the
side-car file's contents.  `os.path.abspath` is an environment-dependent
library call (it consults the current working directory), so it is a
parameter `abspath`.  The `sys.platform == 'cygwin'` path rewrite is elided
as dead code off that platform.  The Python 2 `/` in
`range(0, len(contents) / 2)` is floor division; every index `i * 2` and
`i * 2 + 1` is then in bounds, so `getD` never takes its default. -/
def getCommandsFromFile (abspath : String → String)
    (fileContents : String) (command_directory : String) : List String :=
  let contents := splitNul fileContents
  (List.range (contents.length / 2)).map (fun i =>
    let command := replaceChar (contents.getD (i * 2) "") '"' "\\\""
    let file_path := abspath (contents.getD (i * 2 + 1) "")
    cmdEntry command_directory command file_path)

/-- `_get_compile_commands(path, command_directory)`: the directory walk is
abstracted as the list of the contents of the matched `*_compile_command`
files, in walk order; the `if commands:` guard before `extend` is the
identity on the result. -/
def getCompileCommands (abspath : String → String)
    (files : List String) (command_directory : String) : List String :=
  (files.map (fun c => getCommandsFromFile abspath c command_directory)).flatten

/-- The output-file contents written by `main` of both aggregator scripts:
`write('[')`, then each entry in order, then `seek(tell() - 1)` and
`write(']')`, which overwrites the last byte already written (always an
ASCII `','` or the `'['` itself) with `']'`. -/
def aggOutput (entries : List String) : String :=
  String.mk (("[" ++ String.join entries).data.dropLast ++ [']'])

/-! ### `tools/actions/generate_link_target.py` -/

/-- The side-car file contents written by `main` of
`generate_link_target.py`: empty for a non-EXECUTABLE link, otherwise
`owner NUL id NUL output_file` with no trailing NUL. -/
def linkTargetMain (action : ExtraActionInfo) : String :=
  if action.cpp_link_info.link_target_type ≠ "EXECUTABLE" then ""
  else
    action.owner ++ "\x00" ++ action.id ++ "\x00"
      ++ action.cpp_link_info.output_file

/-! ### `tools/actions/generate_link_targets_json.py` -/

/-- The entry template of `_get_link_target_from_file`, instantiated at
`(target_package, target_uuid, escaped target_executable)`. -/
def linkEntry (package uuid executable : String) : String :=
  "\x7b\n      \"package\": \"" ++ package
    ++ "\",\n      \"uuid\": \"" ++ uuid
    ++ "\",\n      \"executable\": \"" ++ executable
    ++ "\"\n    \x7d,"

/-- `_get_link_target_from_file(file_path, command_directory)`, applied to
the side-car file's contents: fewer than three NUL-delimited fields is `None`
(`none`); otherwise one entry whose executable is
`os.path.join(command_directory, contents[2])` with every backslash
doubled. -/
def getLinkTargetFromFile (fileContents : String)
    (command_directory : String) : Option String :=
  let contents := splitNul fileContents
  if contents.length < 3 then none
  else
    let target_package := contents.getD 0 ""
    let target_uuid := contents.getD 1 ""
    let target_executable := pathJoin command_directory (contents.getD 2 "")
    some (linkEntry target_package target_uuid
      (replaceChar target_executable '\\' "\\\\"))

/-- `_get_link_targets(path, command_directory)`: the walk abstracted as the
list of matched `*_link_target` file contents; `if target:` keeps exactly
the `some` results. -/
def getLinkTargets (files : List String)
    (command_directory : String) : List String :=
  files.filterMap (fun c => getLinkTargetFromFile c command_directory)

/-! ### Concrete fixtures used by witnesses -/

/-- A concrete compile action record. -/
def info0 : CppCompileInfo :=
  { tool := "gcc", compiler_option := ["-O2", "-g"], source_file := "a.c",
    output_file := "a.o", sources_and_headers := ["a.c", "a.h", "b.cc"] }

/-- A concrete stand-in for `os.path.abspath`: prepend a `/`. -/
def absFn (p : String) : String := String.mk ('/' :: p.data)

/-! ### Helper lemmas -/

theorem empty_data : ("" : String).data = [] := rfl

theorem nul_data : ("\x00" : String).data = ['\x00'] := rfl

theorem space_data : (" " : String).data = [' '] := rfl

theorem lbracket_data : ("[" : String).data = ['['] := rfl

theorem data_ne_nil_of_ne_empty {s : String} (h : s ≠ "") : s.data ≠ [] :=
  fun e => h (String.ext e)

theorem mk_ne_empty {l : List Char} (h : l ≠ []) : String.mk l ≠ "" :=
  fun e => h (congrArg String.data e)

/-- The character data of a left fold of appends. -/
theorem foldl_append_data (l : List String) :
    ∀ init : String,
      (l.foldl (fun r s => r ++ s) init).data
        = init.data ++ (l.map String.data).flatten := by
  induction l with
  | nil => intro init; simp
  | cons a l ih =>
    intro init
    simp [List.foldl_cons, ih, String.data_append, List.append_assoc]

/-- The character data of `String.join`. -/
theorem join_data (l : List String) :
    (String.join l).data = (l.map String.data).flatten := by
  have h := foldl_append_data l ""
  simpa [String.join, empty_data] using h

/-- The character data of the extractor's write loop. -/
theorem foldl_write_data (cmd : String) (l : List String) :
    ∀ init : String,
      (l.foldl (fun acc sf => acc ++ cmd ++ "\x00" ++ sf ++ "\x00") init).data
        = init.data
          ++ (l.map (fun sf => cmd.data ++ '\x00' :: (sf.data ++ ['\x00']))).flatten := by
  induction l with
  | nil => intro init; simp
  | cons a l ih =>
    intro init
    simp [List.foldl_cons, ih, String.data_append, nul_data, List.append_assoc]

theorem compileCommandMain_data (b : Bool) (info : CppCompileInfo) :
    (compileCommandMain b info).data
      = ((getCppCommand b info).2.map
          (fun sf => (getCppCommand b info).1.data ++ '\x00' :: (sf.data ++ ['\x00']))).flatten := by
  have h := foldl_write_data (getCppCommand b info).1 (getCppCommand b info).2 ""
  simpa [compileCommandMain, empty_data] using h

/-- Splitting a NUL-free field followed by a NUL separator peels one field. -/
theorem splitCharList_append_nul (xs : List Char) (ys : List Char)
    (h : '\x00' ∉ xs) :
    splitCharList (xs ++ '\x00' :: ys) = xs :: splitCharList ys := by
  induction xs with
  | nil => simp [splitCharList]
  | cons c cs ih =>
    have hc : ¬ c = '\x00' := fun e => h (e ▸ List.mem_cons_self c cs)
    have hcs : '\x00' ∉ cs := fun m => h (List.mem_cons_of_mem c m)
    simp [splitCharList, hc, ih hcs]

/-- The NUL-delimited field sequence of a well-formed compile side-car file:
`cmd, f₁, cmd, f₂, …, cmd, fₖ` followed by the empty field contributed by
the trailing NUL. -/
def pairFields (cmd : String) : List String → List String
  | [] => [""]
  | f :: rest => cmd :: f :: pairFields cmd rest

theorem splitCharList_pairs (cmdd : List Char) (files : List (List Char))
    (hc : '\x00' ∉ cmdd) (hf : ∀ fd ∈ files, '\x00' ∉ fd) :
    splitCharList ((files.map (fun fd => cmdd ++ '\x00' :: (fd ++ ['\x00']))).flatten)
      = (files.map (fun fd => [cmdd, fd])).flatten ++ [[]] := by
  induction files with
  | nil => simp [splitCharList]
  | cons fd fs ih =>
    have h1 : '\x00' ∉ fd := hf fd (List.mem_cons_self fd fs)
    have h2 : ∀ g ∈ fs, '\x00' ∉ g := fun g m => hf g (List.mem_cons_of_mem fd m)
    have e1 : (((fd :: fs).map (fun fd => cmdd ++ '\x00' :: (fd ++ ['\x00']))).flatten)
        = cmdd ++ '\x00' :: (fd ++ '\x00'
            :: ((fs.map (fun fd => cmdd ++ '\x00' :: (fd ++ ['\x00']))).flatten)) := by
      simp [List.append_assoc]
    rw [e1, splitCharList_append_nul cmdd _ hc, splitCharList_append_nul fd _ h1, ih h2]
    simp

theorem sidecar_fields (b : Bool) (info : CppCompileInfo)
    (hc : nulFree (getCppCommand b info).1)
    (hf : ∀ f ∈ (getCppCommand b info).2, nulFree f) :
    splitNul (compileCommandMain b info)
      = pairFields (getCppCommand b info).1 (getCppCommand b info).2 := by
  have hmap : ((getCppCommand b info).2.map
        (fun sf => (getCppCommand b info).1.data ++ '\x00' :: (sf.data ++ ['\x00'])))
      = (((getCppCommand b info).2.map String.data).map
          (fun fd => (getCppCommand b info).1.data ++ '\x00' :: (fd ++ ['\x00']))) := by
    simp [List.map_map]
  have hf2 : ∀ fd ∈ (getCppCommand b info).2.map String.data, '\x00' ∉ fd := by
    intro fd hm
    rcases List.mem_map.mp hm with ⟨f, hfm, he⟩
    exact he ▸ hf f hfm
  unfold splitNul
  rw [compileCommandMain_data, hmap,
    splitCharList_pairs (getCppCommand b info).1.data _ hc hf2]
  generalize (getCppCommand b info).1 = cmd
  generalize (getCppCommand b info).2 = files
  induction files with
  | nil => rfl
  | cons f fs ih =>
    simp only [List.map_cons, List.flatten_cons, List.cons_append, List.map_append,
      List.map_cons, pairFields] at ih ⊢
    rw [← ih]
    rfl

theorem pairFields_length (cmd : String) (files : List String) :
    (pairFields cmd files).length = 2 * files.length + 1 := by
  induction files with
  | nil => rfl
  | cons f fs ih => simp [pairFields, ih]; omega

theorem pairFields_getD_even (cmd : String) (files : List String) :
    ∀ i, i < files.length → (pairFields cmd files).getD (i * 2) "" = cmd := by
  induction files with
  | nil => intro i h; simp at h
  | cons f fs ih =>
    intro i h
    cases i with
    | zero => rfl
    | succ j =>
      have e : (j + 1) * 2 = j * 2 + 1 + 1 := by ring
      rw [e]
      show (pairFields cmd fs).getD (j * 2) "" = cmd
      exact ih j (by simpa using Nat.lt_of_succ_lt_succ h)

theorem replaceChar_ne_empty (s : String) (a : Char) (b : String)
    (hs : s ≠ "") (hb : b.data ≠ []) : replaceChar s a b ≠ "" := by
  unfold replaceChar
  apply mk_ne_empty
  have hd := data_ne_nil_of_ne_empty hs
  cases hdata : s.data with
  | nil => exact absurd hdata hd
  | cons c cs =>
    simp only [List.map_cons, List.flatten_cons]
    intro e
    rcases List.append_eq_nil.mp e with ⟨e1, _⟩
    by_cases hca : c = a
    · rw [if_pos hca] at e1; exact hb e1
    · rw [if_neg hca] at e1; exact List.cons_ne_nil c [] e1

theorem getCppCommand_fst_ne_empty (b : Bool) (info : CppCompileInfo) :
    (getCppCommand b info).1 ≠ "" := by
  intro e
  have h := congrArg String.data e
  simp [getCppCommand, String.data_append, space_data, empty_data] at h

/-- Every compile-commands entry ends in the two characters `\x7d,`. -/
theorem entry_comma_suffix (d c f : String) :
    ['\x7d', ','] <:+ (cmdEntry d c f).data := by
  have h1 : ['\x7d', ','] <:+ ("\"\n      \x7d," : String).data := by decide
  have h2 : cmdEntry d c f
      = ("\x7b\n        \"directory\": \"" ++ d ++ "\",\n        \"command\": \"" ++ c
          ++ "\",\n        \"file\": \"" ++ f) ++ "\"\n      \x7d," := rfl
  rw [h2, String.data_append]
  exact h1.trans (List.suffix_append _ _)

theorem suffix_flatten {α : Type} (S : List α) (L : List (List α))
    (hne : L ≠ []) (hall : ∀ l ∈ L, S <:+ l) : S <:+ L.flatten := by
  induction L with
  | nil => exact absurd rfl hne
  | cons l L ih =>
    cases L with
    | nil => simpa using hall l (List.mem_cons_self l [])
    | cons l2 L2 =>
      have h := ih (by simp) (fun g m => hall g (List.mem_cons_of_mem l m))
      exact h.trans (List.suffix_append _ _)

theorem mem_getCommandsFromFile {ap : String → String} {fc dir e : String}
    (h : e ∈ getCommandsFromFile ap fc dir) :
    ∃ c f, e = cmdEntry dir c f := by
  unfold getCommandsFromFile at h
  rcases List.mem_map.mp h with ⟨i, _, he⟩
  exact ⟨_, _, he.symm⟩

theorem mem_getCompileCommands {ap : String → String} {files : List String}
    {dir e : String} (h : e ∈ getCompileCommands ap files dir) :
    ∃ c f, e = cmdEntry dir c f := by
  unfold getCompileCommands at h
  rcases List.mem_flatten.mp h with ⟨l, hl, hel⟩
  rcases List.mem_map.mp hl with ⟨fc, _, hfc⟩
  exact mem_getCommandsFromFile (hfc ▸ hel)

/-- The concatenation of the entries written by the compile-commands
aggregator ends in `\x7d,` whenever there is at least one entry. -/
theorem agg_entries_comma (ap : String → String) (files : List String)
    (dir : String) (hne : getCompileCommands ap files dir ≠ []) :
    ['\x7d', ','] <:+ (String.join (getCompileCommands ap files dir)).data := by
  rw [join_data]
  apply suffix_flatten
  · intro hx
    exact hne (List.map_eq_nil_iff.mp hx)
  · intro l hl
    rcases List.mem_map.mp hl with ⟨e, he, hel⟩
    rcases mem_getCompileCommands he with ⟨c, f, hef⟩
    rw [← hel, hef]
    exact entry_comma_suffix dir c f

theorem dropLast_cons_of_ne_nil {α : Type} (c : α) (l : List α) (h : l ≠ []) :
    (c :: l).dropLast = c :: l.dropLast := by
  cases l with
  | nil => exact absurd rfl h
  | cons a as => rfl

theorem aggOutput_data (entries : List String) :
    (aggOutput entries).data
      = ('[' :: (String.join entries).data).dropLast ++ [']'] := by
  simp [aggOutput, String.data_append, lbracket_data]

/-! ### The claims -/

/-- Claim C1 (code bug): with zero matching side-car files the aggregator
writes `[`, seeks back one byte to position 0, and overwrites the `[` with
`]`, so the output file is the single character `]` — not the valid JSON
`[]` the claim and the code's own comment ("Delete the last comma to make
the file valid JSON") require.  The same code is in both aggregator
scripts. -/
theorem agg_zero_entries_output : aggOutput [] = "]" := by decide

/-- Claim C3: with header inclusion enabled the extractor enumerates the
primary source plus every associated file ending in `.h` (`1 + H` files,
hence `1 + H` pairs, including when the associated list is empty); with it
disabled, only the primary source (one pair).  `main` writes one
(command, file) pair per enumerated file. -/
theorem extractor_pair_count (info : CppCompileInfo) :
    (getCppCommand true info).2.length
        = 1 + (info.sources_and_headers.filter
            (fun source_file => strEndsWith source_file ".h")).length
    ∧ (getCppCommand false info).2.length = 1 := by
  constructor
  · cases hh : info.sources_and_headers.isEmpty with
    | true =>
      have he : info.sources_and_headers = [] := List.isEmpty_iff.mp hh
      simp [getCppCommand, hh, he]
    | false => simp [getCppCommand, hh, Nat.add_comm]
  · simp [getCppCommand]

/-- Claim C5: a link action whose `link_target_type` is not `EXECUTABLE`
yields an empty side-car file, which the link-targets aggregator parses to
a single empty field (fewer than three), returns `None` for, and therefore
contributes zero entries. -/
theorem non_executable_link_skipped (action : ExtraActionInfo) (dir : String)
    (h : action.cpp_link_info.link_target_type ≠ "EXECUTABLE") :
    linkTargetMain action = ""
    ∧ getLinkTargetFromFile (linkTargetMain action) dir = none
    ∧ getLinkTargets [linkTargetMain action] dir = [] := by
  have h1 : linkTargetMain action = "" := by simp [linkTargetMain, h]
  have h2 : getLinkTargetFromFile "" dir = none := by
    simp [getLinkTargetFromFile, splitNul, splitCharList, empty_data]
  exact ⟨h1, h1 ▸ h2, by simp [getLinkTargets, h1, h2]⟩

/-- Claim C5 witness: a concrete `STATIC_LIBRARY` link action. -/
theorem non_executable_link_skipped_witness :
    linkTargetMain
        { owner := "//foo:bar", id := "abc123",
          cpp_link_info :=
            { link_target_type := "STATIC_LIBRARY", output_file := "b.a" } } = ""
    ∧ getLinkTargetFromFile
        (linkTargetMain
          { owner := "//foo:bar", id := "abc123",
            cpp_link_info :=
              { link_target_type := "STATIC_LIBRARY", output_file := "b.a" } })
        "/exec" = none
    ∧ getLinkTargets
        [linkTargetMain
          { owner := "//foo:bar", id := "abc123",
            cpp_link_info :=
              { link_target_type := "STATIC_LIBRARY", output_file := "b.a" } }]
        "/exec" = [] :=
  non_executable_link_skipped
    { owner := "//foo:bar", id := "abc123",
      cpp_link_info :=
        { link_target_type := "STATIC_LIBRARY", output_file := "b.a" } }
    "/exec" (by decide)

/-- Claim C6: for a side-car file with at least three NUL-delimited fields
the link-targets aggregator emits exactly one entry: `package` is the first
field, `uuid` the second, and `executable` the third joined onto the
command directory by `os.path.join` (not a realpath) with every backslash
doubled. -/
theorem link_entry_fields (fileContents dir p u e : String)
    (rest : List String) (h : splitNul fileContents = p :: u :: e :: rest) :
    getLinkTargetFromFile fileContents dir
      = some (linkEntry p u (replaceChar (pathJoin dir e) '\\' "\\\\")) := by
  unfold getLinkTargetFromFile
  rw [h]
  rw [if_neg (by simp)]
  rfl

/-- Claim C6 witness: the spec's own example record. -/
theorem link_entry_fields_witness :
    getLinkTargetFromFile "//foo:bar\x00abc123\x00bazel-out/bin/foo/bar" "/exec"
      = some (linkEntry "//foo:bar" "abc123"
          (replaceChar (pathJoin "/exec" "bazel-out/bin/foo/bar") '\\' "\\\\")) :=
  link_entry_fields "//foo:bar\x00abc123\x00bazel-out/bin/foo/bar" "/exec"
    "//foo:bar" "abc123" "bazel-out/bin/foo/bar" [] (by decide)

/-- Claim C8: for an executable link the extractor writes exactly
`owner NUL id NUL output_file`, with no trailing NUL after the last
field. -/
theorem executable_link_sidecar_format (action : ExtraActionInfo)
    (h : action.cpp_link_info.link_target_type = "EXECUTABLE") :
    linkTargetMain action
      = action.owner ++ "\x00" ++ action.id ++ "\x00"
          ++ action.cpp_link_info.output_file := by
  simp [linkTargetMain, h]

/-- Claim C8 witness: a concrete executable link action. -/
theorem executable_link_sidecar_format_witness :
    linkTargetMain
        { owner := "//foo:bar", id := "abc123",
          cpp_link_info :=
            { link_target_type := "EXECUTABLE",
              output_file := "bazel-out/bin/foo/bar" } }
      = "//foo:bar" ++ "\x00" ++ "abc123" ++ "\x00" ++ "bazel-out/bin/foo/bar" :=
  executable_link_sidecar_format
    { owner := "//foo:bar", id := "abc123",
      cpp_link_info :=
        { link_target_type := "EXECUTABLE",
          output_file := "bazel-out/bin/foo/bar" } }
    (by decide)

/-- Claim C10: a side-car file splitting into fewer than two NUL-delimited
fields (an empty file splits into one empty field) makes the pair count
`len / 2 = 0`, so the loop body never runs: the file contributes zero
entries and no error is raised. -/
theorem short_sidecar_skipped (ap : String → String) (fileContents dir : String)
    (h : (splitNul fileContents).length < 2) :
    getCommandsFromFile ap fileContents dir = []
    ∧ getCompileCommands ap [fileContents] dir = [] := by
  have h0 : (splitNul fileContents).length / 2 = 0 := by omega
  constructor
  · simp [getCommandsFromFile, h0]
  · simp [getCompileCommands, getCommandsFromFile, h0]

/-- Claim C10 witness: the empty side-car file, whose contents split into
the single field `""`. -/
theorem short_sidecar_skipped_witness :
    (splitNul "").length < 2
    ∧ getCommandsFromFile (fun p => "/abs/" ++ p) "" "/exec" = []
    ∧ getCompileCommands (fun p => "/abs/" ++ p) [""] "/exec" = [] :=
  ⟨by decide,
    short_sidecar_skipped (fun p => "/abs/" ++ p) "" "/exec" (by decide)⟩

/-- Claim C7: the compile extractor's side-car file is exactly the
concatenation, over the enumerated files in order, of
`command NUL file NUL`, every pair carrying the identical command
string. -/
theorem compile_sidecar_format (b : Bool) (info : CppCompileInfo) :
    compileCommandMain b info
      = String.join ((getCppCommand b info).2.map
          (fun sf => (getCppCommand b info).1 ++ "\x00" ++ sf ++ "\x00")) := by
  apply String.ext
  rw [compileCommandMain_data, join_data, List.map_map]
  have hfg : ((fun s : String => s.data) ∘
        (fun sf => (getCppCommand b info).1 ++ "\x00" ++ sf ++ "\x00"))
      = (fun sf : String =>
          (getCppCommand b info).1.data ++ '\x00' :: (sf.data ++ ['\x00'])) := by
    funext sf
    simp [Function.comp, String.data_append, nul_data]
  rw [hfg]

/-- Claim C9: the pair at index `i` is emitted with its command string's
double quotes each replaced by backslash-quote before being embedded in
the entry's `command` field. -/
theorem command_quotes_escaped (ap : String → String)
    (fileContents dir : String) (i : Nat)
    (h : i < (splitNul fileContents).length / 2) :
    (getCommandsFromFile ap fileContents dir).getD i ""
      = cmdEntry dir
          (replaceChar ((splitNul fileContents).getD (i * 2) "") '"' "\\\"")
          (ap ((splitNul fileContents).getD (i * 2 + 1) "")) := by
  unfold getCommandsFromFile
  rw [List.getD_eq_getElem?_getD, List.getElem?_map, List.getElem?_range h]
  rfl

/-- Claim C9 witness: a command containing double quotes. -/
theorem command_quotes_escaped_witness :
    0 < (splitNul "say \"hi\"\x00a.c\x00").length / 2
    ∧ (getCommandsFromFile absFn "say \"hi\"\x00a.c\x00" "/exec").getD 0 ""
        = cmdEntry "/exec"
            (replaceChar ((splitNul "say \"hi\"\x00a.c\x00").getD (0 * 2) "")
              '"' "\\\"")
            (absFn ((splitNul "say \"hi\"\x00a.c\x00").getD (0 * 2 + 1) "")) :=
  ⟨by decide,
    command_quotes_escaped absFn "say \"hi\"\x00a.c\x00" "/exec" 0 (by decide)⟩

/-- Claim C2: aggregating the side-car file written for one compile-action
record yields exactly one entry per (command, file) pair written, each an
object literal whose `directory` field is the (non-empty) command
directory and whose `command` and `file` fields are non-empty, provided
the command and file paths are NUL-free and `abspath` never returns the
empty string. -/
theorem sidecar_roundtrip_entries (ap : String → String) (b : Bool)
    (info : CppCompileInfo) (dir : String)
    (hdir : dir ≠ "")
    (hap : ∀ p, ap p ≠ "")
    (hc : nulFree (getCppCommand b info).1)
    (hf : ∀ f ∈ (getCppCommand b info).2, nulFree f) :
    (getCommandsFromFile ap (compileCommandMain b info) dir).length
        = (getCppCommand b info).2.length
    ∧ ∀ e ∈ getCommandsFromFile ap (compileCommandMain b info) dir,
        ∃ c f, e = cmdEntry dir c f ∧ dir ≠ "" ∧ c ≠ "" ∧ f ≠ "" := by
  have hfields := sidecar_fields b info hc hf
  have hlen : (splitNul (compileCommandMain b info)).length
      = 2 * (getCppCommand b info).2.length + 1 := by
    rw [hfields, pairFields_length]
  have hdiv : (splitNul (compileCommandMain b info)).length / 2
      = (getCppCommand b info).2.length := by omega
  constructor
  · simp [getCommandsFromFile, hdiv]
  · intro e he
    unfold getCommandsFromFile at he
    rcases List.mem_map.mp he with ⟨i, hi, hei⟩
    have hik : i < (getCppCommand b info).2.length := by
      have h2 := List.mem_range.mp hi
      rw [hdiv] at h2
      exact h2
    refine ⟨replaceChar
        ((splitNul (compileCommandMain b info)).getD (i * 2) "") '"' "\\\"",
      ap ((splitNul (compileCommandMain b info)).getD (i * 2 + 1) ""),
      hei.symm, hdir, ?_, hap _⟩
    rw [hfields,
      pairFields_getD_even (getCppCommand b info).1 (getCppCommand b info).2 i hik]
    exact replaceChar_ne_empty _ _ _ (getCppCommand_fst_ne_empty b info) (by decide)

/-- Claim C2 witness: the concrete compile action `info0` (two enumerated
files) aggregated alone. -/
theorem sidecar_roundtrip_entries_witness :
    (getCommandsFromFile absFn (compileCommandMain true info0) "/exec").length
        = (getCppCommand true info0).2.length
    ∧ ∀ e ∈ getCommandsFromFile absFn (compileCommandMain true info0) "/exec",
        ∃ c f, e = cmdEntry "/exec" c f ∧ "/exec" ≠ "" ∧ c ≠ "" ∧ f ≠ "" :=
  sidecar_roundtrip_entries absFn true info0 "/exec" (by decide)
    (fun p => mk_ne_empty (List.cons_ne_nil _ _)) (by decide) (by decide)

/-- Claim C4: with at least one entry, the aggregate output is `[`, the
entries in order, with the final character of the written entries — always
the trailing comma — overwritten by `]`: the output ends in `\x7d]`, with
no trailing comma before the closing bracket. -/
theorem agg_output_wraps (ap : String → String) (files : List String)
    (dir : String) (hne : getCompileCommands ap files dir ≠ []) :
    (String.join (getCompileCommands ap files dir)).data.getLast? = some ','
    ∧ aggOutput (getCompileCommands ap files dir)
        = String.mk ('['
            :: (String.join (getCompileCommands ap files dir)).data.dropLast
            ++ [']'])
    ∧ ['\x7d', ']'] <:+ (aggOutput (getCompileCommands ap files dir)).data := by
  rcases agg_entries_comma ap files dir hne with ⟨t, ht⟩
  have hJ : (String.join (getCompileCommands ap files dir)).data
      = (t ++ ['\x7d']) ++ [','] := by
    rw [← ht]; simp
  have hJne : (String.join (getCompileCommands ap files dir)).data ≠ [] := by
    rw [hJ]; simp
  refine ⟨?_, ?_, ?_⟩
  · rw [hJ, List.getLast?_concat]
  · apply String.ext
    rw [aggOutput_data, dropLast_cons_of_ne_nil _ _ hJne]
  · rw [aggOutput_data, dropLast_cons_of_ne_nil _ _ hJne, hJ, List.dropLast_concat]
    exact ⟨'[' :: t, by simp⟩

/-- Claim C4 witness: one side-car file with one pair. -/
theorem agg_output_wraps_witness :
    (String.join (getCompileCommands absFn ["gcc -O2\x00a.c\x00"] "/exec")).data.getLast?
        = some ','
    ∧ aggOutput (getCompileCommands absFn ["gcc -O2\x00a.c\x00"] "/exec")
        = String.mk ('['
            :: (String.join (getCompileCommands absFn ["gcc -O2\x00a.c\x00"] "/exec")).data.dropLast
            ++ [']'])
    ∧ ['\x7d', ']']
        <:+ (aggOutput (getCompileCommands absFn ["gcc -O2\x00a.c\x00"] "/exec")).data :=
  agg_output_wraps absFn ["gcc -O2\x00a.c\x00"] "/exec" (by decide)

end Xrtl
